import Mathlib

/-!
Verification development for `src/vs/workbench/services/textMate/electron-browser/textMateService.ts`.

Shallow embedding: the observed state of an `ITextModel` becomes a `TextModel`
record, the fire-and-forget calls on the `TextMateWorker` proxy become values of
`WorkerMsg` collected in emission order, `ModelWorkerTextMateTokenizer` and
`TextMateService` become records, and every method becomes a pure function
returning the updated record together with the list of messages it sent.
The asynchronous `worker.getProxy().then(...)` callback is a separate step
(`TextMateService.getProxyResolved`) that can be delivered at any later point,
which is how the spawn/kill race is expressed.
-/

/-- Observed state of an `ITextModel`. The core only reads these fields; they
are mutated externally. `uri` is `model.uri.toString()` and never changes. -/
structure TextModel where
  uri : String
  versionId : Nat
  lines : List String
  eol : String
  languageId : Nat
  attached : Bool
  tooLarge : Bool
  deriving DecidableEq, Repr

/-- A range in `IModelContentChange`. -/
structure ModelRange where
  startLineNumber : Nat
  startColumn : Nat
  endLineNumber : Nat
  endColumn : Nat
  deriving DecidableEq, Repr

/-- One edit of a content-change event: replaced range plus new text. -/
structure ModelContentChange where
  range : ModelRange
  text : String
  deriving DecidableEq, Repr

/-- Shape of `IModelContentChangedEvent`: an ordered batch of edits and the resulting
version. Forwarded verbatim by the tokenizer, so its exact shape is opaque to
the core. -/
structure ModelContentChangedEvent where
  changes : List ModelContentChange
  versionId : Nat
  deriving DecidableEq, Repr

/-- The fire-and-forget messages sent to the `TextMateWorker` proxy. -/
inductive WorkerMsg where
  | acceptNewModel (uri : String) (versionId : Nat) (lines : List String)
      (eol : String) (languageId : Nat)
  | acceptModelChanged (uri : String) (e : ModelContentChangedEvent)
  | acceptModelLanguageChanged (uri : String) (languageId : Nat)
  | acceptRemovedModel (uri : String)
  deriving DecidableEq, Repr

/-- The uri a worker message is about. -/
def WorkerMsg.msgUri : WorkerMsg → String
  | .acceptNewModel u _ _ _ _ => u
  | .acceptModelChanged u _ => u
  | .acceptModelLanguageChanged u _ => u
  | .acceptRemovedModel u => u

/-- State of a `ModelWorkerTextMateTokenizer`. `_modelUri` stands for the
immutable `this._model.uri.toString()` of the model reference it holds;
`subscribed` models whether the listeners registered through `_register` are
still alive (the `Disposable` store has not been cleared). -/
structure ModelWorkerTextMateTokenizer where
  _modelUri : String
  _isSynced : Bool
  subscribed : Bool
  deriving DecidableEq, Repr

namespace ModelWorkerTextMateTokenizer

/-- Method `_beginSync`: sets `_isSynced := true` and sends the full snapshot built
from the model's current state. -/
def _beginSync (t : ModelWorkerTextMateTokenizer) (m : TextModel) :
    ModelWorkerTextMateTokenizer × List WorkerMsg :=
  ({ t with _isSynced := true },
   [WorkerMsg.acceptNewModel m.uri m.versionId m.lines m.eol m.languageId])

/-- Method `_endSync`: sends `acceptRemovedModel(this._model.uri.toString())`.
NOTE (faithful to the source): it does NOT reset `_isSynced` to `false`. -/
def _endSync (t : ModelWorkerTextMateTokenizer) :
    ModelWorkerTextMateTokenizer × List WorkerMsg :=
  (t, [WorkerMsg.acceptRemovedModel t._modelUri])

/-- Method `_onDidChangeAttached`: begin sync on attached-and-unsynced, end sync on
detached-and-synced. `m` is the tokenizer's model in its current state. -/
def _onDidChangeAttached (t : ModelWorkerTextMateTokenizer) (m : TextModel) :
    ModelWorkerTextMateTokenizer × List WorkerMsg :=
  if m.attached then
    if !t._isSynced then t._beginSync m else (t, [])
  else
    if t._isSynced then t._endSync else (t, [])

/-- The `onDidChangeContent` listener: forwards the event verbatim when synced,
drops it otherwise. -/
def onDidChangeContent (t : ModelWorkerTextMateTokenizer)
    (e : ModelContentChangedEvent) :
    ModelWorkerTextMateTokenizer × List WorkerMsg :=
  if t._isSynced then (t, [WorkerMsg.acceptModelChanged t._modelUri e])
  else (t, [])

/-- The `onDidChangeLanguage` listener: forwards the model's current language
id when synced, drops the event otherwise. -/
def onDidChangeLanguage (t : ModelWorkerTextMateTokenizer) (m : TextModel) :
    ModelWorkerTextMateTokenizer × List WorkerMsg :=
  if t._isSynced then
    (t, [WorkerMsg.acceptModelLanguageChanged t._modelUri m.languageId])
  else (t, [])

/-- The constructor: starts unsynced, registers the listeners, and immediately
invokes `_onDidChangeAttached()` on the model's current state. -/
def create (m : TextModel) : ModelWorkerTextMateTokenizer × List WorkerMsg :=
  let t0 : ModelWorkerTextMateTokenizer :=
    { _modelUri := m.uri, _isSynced := false, subscribed := true }
  t0._onDidChangeAttached m

/-- Method `dispose`: `super.dispose()` clears the listener registrations, then
`_endSync()` unconditionally sends the removal message. -/
def dispose (t : ModelWorkerTextMateTokenizer) :
    ModelWorkerTextMateTokenizer × List WorkerMsg :=
  let t1 := { t with subscribed := false }
  t1._endSync

end ModelWorkerTextMateTokenizer

/-- The module-level constant of the source file. -/
def RUN_TEXTMATE_IN_WORKER : Bool := false

/-- Lookup in the string-keyed object `this._tokenizers` (first match; keys
are kept unique by `mapSet`). -/
def mapGet : List (String × ModelWorkerTextMateTokenizer) → String →
    Option ModelWorkerTextMateTokenizer
  | [], _ => none
  | (k, v) :: rest, u => if k = u then some v else mapGet rest u

/-- Deletion `delete this._tokenizers[key]`. -/
def mapErase : List (String × ModelWorkerTextMateTokenizer) → String →
    List (String × ModelWorkerTextMateTokenizer)
  | [], _ => []
  | (k, v) :: rest, u =>
    if k = u then mapErase rest u else (k, v) :: mapErase rest u

/-- Assignment `this._tokenizers[key] = tokenizer` (overwrite semantics). -/
def mapSet (l : List (String × ModelWorkerTextMateTokenizer)) (k : String)
    (v : ModelWorkerTextMateTokenizer) :
    List (String × ModelWorkerTextMateTokenizer) :=
  (k, v) :: mapErase l k

/-- State of the `TextMateService`. Workers and proxies are identified by
numeric ids standing for JS object identity; `disposedWorkers` is a ledger of
the `this._worker.dispose()` calls made so far, so that worker disposal is an
observable effect of the embedding. -/
structure TextMateService where
  _worker : Option Nat
  _workerProxy : Option Nat
  _tokenizers : List (String × ModelWorkerTextMateTokenizer)
  disposedWorkers : List Nat
  deriving DecidableEq, Repr

namespace TextMateService

/-- Method `_onModelAdded`: bail out when no proxy is resolved or the model is too
large; otherwise construct a tokenizer (which may immediately send a snapshot)
and register it under the model's uri. -/
def _onModelAdded (s : TextMateService) (m : TextModel) :
    TextMateService × List WorkerMsg :=
  match s._workerProxy with
  | none => (s, [])
  | some _ =>
    if m.tooLarge then (s, [])
    else
      let r := ModelWorkerTextMateTokenizer.create m
      ({ s with _tokenizers := mapSet s._tokenizers m.uri r.1 }, r.2)

/-- Method `_onModelRemoved`: dispose and unregister the tokenizer for the uri, if
one is registered. -/
def _onModelRemoved (s : TextMateService) (u : String) :
    TextMateService × List WorkerMsg :=
  match mapGet s._tokenizers u with
  | none => (s, [])
  | some t =>
    ({ s with _tokenizers := mapErase s._tokenizers u }, (t.dispose).2)

/-- Method `_killWorker`: dispose every registered tokenizer, empty the map, dispose
the worker when one is present, and clear both references. -/
def _killWorker (s : TextMateService) : TextMateService × List WorkerMsg :=
  let msgs := s._tokenizers.foldl (fun acc kv => acc ++ (kv.2.dispose).2) []
  ({ _worker := none,
     _workerProxy := none,
     _tokenizers := [],
     disposedWorkers := s.disposedWorkers ++ s._worker.toList }, msgs)

/-- Method `_onDidCreateGrammarFactory`: kill the current worker, then — only when
the worker-offload flag is set — create a fresh worker (`getProxy()` is still
pending afterwards, so `_workerProxy` stays `none`). `flag` is the value of
`RUN_TEXTMATE_IN_WORKER`, fixed at construction; `wNew` is the identity of the
freshly created worker. -/
def _onDidCreateGrammarFactory (s : TextMateService) (flag : Bool)
    (wNew : Nat) : TextMateService × List WorkerMsg :=
  let r := s._killWorker
  if flag then ({ r.1 with _worker := some wNew }, r.2) else r

/-- Method `_onDidDisposeGrammarFactory`: kill the worker, no respawn. -/
def _onDidDisposeGrammarFactory (s : TextMateService) :
    TextMateService × List WorkerMsg :=
  s._killWorker

/-- Catch-up loop of the `getProxy` callback:
`this._modelService.getModels().forEach(model => this._onModelAdded(model))`. -/
def foldAdd (s : TextMateService) (ms : List TextModel) :
    TextMateService × List WorkerMsg :=
  ms.foldl (fun acc m =>
    let r := acc.1._onModelAdded m
    (r.1, acc.2 ++ r.2)) (s, [])

/-- The `worker.getProxy().then((proxy) => ...)` callback, delivered
asynchronously: if the worker it was spawned for (`w`) is no longer the live
worker, discard the result; otherwise store the proxy and run catch-up over
the model service's current models. -/
def getProxyResolved (s : TextMateService) (w : Nat) (p : Nat)
    (ms : List TextModel) : TextMateService × List WorkerMsg :=
  if s._worker = some w then
    foldAdd { s with _workerProxy := some p } ms
  else (s, [])

end TextMateService

/-- The external observable world plus the service: the model service's
current models, the service state, and the cumulative message trace. -/
structure SysState where
  service : TextMateService
  models : List TextModel
  trace : List WorkerMsg
  deriving DecidableEq, Repr

/-- External events driving the system. `attachChange`, `contentChange` and
`languageChange` first mutate the named model and then fire the corresponding
model notification; `grammarCreated`/`grammarDisposed` are the grammar-factory
events; `proxyResolved w p` is the asynchronous resolution of the `getProxy`
future of worker `w` with proxy `p`. -/
inductive Event where
  | modelAdded (m : TextModel)
  | modelRemoved (u : String)
  | attachChange (u : String) (attached : Bool)
  | contentChange (u : String) (newVersion : Nat) (newLines : List String)
      (e : ModelContentChangedEvent)
  | languageChange (u : String) (lang : Nat)
  | grammarCreated (wNew : Nat)
  | grammarDisposed
  | proxyResolved (w : Nat) (p : Nat)
  deriving DecidableEq, Repr

/-- Lookup a model by uri in the model service. -/
def lookupModel : List TextModel → String → Option TextModel
  | [], _ => none
  | m :: rest, u => if m.uri = u then some m else lookupModel rest u

/-- Apply an external mutation to the model with the given uri. -/
def updateModel (ms : List TextModel) (u : String) (f : TextModel → TextModel) :
    List TextModel :=
  ms.map fun m => if m.uri = u then f m else m

/-- Dispatch a fired model notification to the tokenizer registered for `u`
(if any): run the handler and store the updated tokenizer back. -/
def dispatch (st : SysState) (u : String)
    (h : ModelWorkerTextMateTokenizer →
      ModelWorkerTextMateTokenizer × List WorkerMsg) : SysState :=
  match mapGet st.service._tokenizers u with
  | none => st
  | some t =>
    let r := h t
    { st with
      service :=
        { st.service with _tokenizers := mapSet st.service._tokenizers u r.1 },
      trace := st.trace ++ r.2 }

/-- One step of the system. The model service guarantees at most one model per
uri, so a `modelAdded` for an already-present uri is a no-op of the external
world; events naming an absent model likewise fire nothing. -/
def step (flag : Bool) (st : SysState) : Event → SysState
  | .modelAdded m =>
    match lookupModel st.models m.uri with
    | some _ => st
    | none =>
      let r := st.service._onModelAdded m
      { service := r.1, models := st.models ++ [m], trace := st.trace ++ r.2 }
  | .modelRemoved u =>
    match lookupModel st.models u with
    | none => st
    | some _ =>
      let r := st.service._onModelRemoved u
      { service := r.1,
        models := (st.models.filter fun m => m.uri ≠ u),
        trace := st.trace ++ r.2 }
  | .attachChange u b =>
    match lookupModel st.models u with
    | none => st
    | some m0 =>
      let m1 := { m0 with attached := b }
      let st1 := { st with models := updateModel st.models u fun m => { m with attached := b } }
      dispatch st1 u fun t => t._onDidChangeAttached m1
  | .contentChange u v ls e =>
    match lookupModel st.models u with
    | none => st
    | some _ =>
      let st1 := { st with models := updateModel st.models u fun m => { m with versionId := v, lines := ls } }
      dispatch st1 u fun t => t.onDidChangeContent e
  | .languageChange u lang =>
    match lookupModel st.models u with
    | none => st
    | some m0 =>
      let m1 := { m0 with languageId := lang }
      let st1 := { st with models := updateModel st.models u fun m => { m with languageId := lang } }
      dispatch st1 u fun t => t.onDidChangeLanguage m1
  | .grammarCreated wNew =>
    let r := st.service._onDidCreateGrammarFactory flag wNew
    { st with service := r.1, trace := st.trace ++ r.2 }
  | .grammarDisposed =>
    let r := st.service._onDidDisposeGrammarFactory
    { st with service := r.1, trace := st.trace ++ r.2 }
  | .proxyResolved w p =>
    let r := st.service.getProxyResolved w p st.models
    { st with service := r.1, trace := st.trace ++ r.2 }

/-- Initial state: the service as constructed (no worker, no proxy, empty
map), no models, nothing sent. -/
def initState : SysState :=
  { service :=
      { _worker := none, _workerProxy := none, _tokenizers := [],
        disposedWorkers := [] },
    models := [], trace := [] }

/-- Run the system on a list of events. -/
def run (flag : Bool) (es : List Event) : SysState :=
  es.foldl (step flag) initState

/-- Scan of a message trace for one uri `u`. The accumulator is true exactly
when a snapshot for `u` is more recent than any removal for `u`; an edit or
language-change message for `u` is only legal while that holds. -/
def causalScan (u : String) : Bool → List WorkerMsg → Bool
  | _, [] => true
  | live, WorkerMsg.acceptNewModel v _ _ _ _ :: rest =>
    causalScan u (if v = u then true else live) rest
  | live, WorkerMsg.acceptModelChanged v _ :: rest =>
    if v = u then (if live then causalScan u live rest else false)
    else causalScan u live rest
  | live, WorkerMsg.acceptModelLanguageChanged v _ :: rest =>
    if v = u then (if live then causalScan u live rest else false)
    else causalScan u live rest
  | live, WorkerMsg.acceptRemovedModel v :: rest =>
    causalScan u (if v = u then false else live) rest

/-- Causal order for uri `u`, as the spec states it: the snapshot precedes any
edit or language-change message, and no edit or language-change message for
`u` occurs after a removal and before the next snapshot. -/
def causallyOrdered (u : String) (ms : List WorkerMsg) : Bool :=
  causalScan u false ms

/-- Batch-processing of a list of content-change events by one tokenizer. -/
def processContentChanges (t : ModelWorkerTextMateTokenizer)
    (es : List ModelContentChangedEvent) :
    ModelWorkerTextMateTokenizer × List WorkerMsg :=
  es.foldl (fun acc e =>
    let r := acc.1.onDidChangeContent e
    (r.1, acc.2 ++ r.2)) (t, [])

/-- Recursive form of the catch-up loop, easier to reason about. -/
def foldAddAux (s : TextMateService) (acc : List WorkerMsg) :
    List TextModel → TextMateService × List WorkerMsg
  | [] => (s, acc)
  | m :: ms =>
    let r := s._onModelAdded m
    foldAddAux r.1 (acc ++ r.2) ms

theorem foldAdd_eq_aux (ms : List TextModel) (s : TextMateService)
    (acc : List WorkerMsg) :
    ms.foldl (fun acc m =>
      let r := acc.1._onModelAdded m
      (r.1, acc.2 ++ r.2)) (s, acc) = foldAddAux s acc ms := by
  induction ms generalizing s acc with
  | nil => rfl
  | cons m rest ih => simp only [List.foldl_cons, foldAddAux]; exact ih _ _

theorem foldAdd_eq (s : TextMateService) (ms : List TextModel) :
    TextMateService.foldAdd s ms = foldAddAux s [] ms := by
  unfold TextMateService.foldAdd
  exact foldAdd_eq_aux ms s []

theorem mapGet_mapErase (l : List (String × ModelWorkerTextMateTokenizer))
    (k u : String) :
    mapGet (mapErase l k) u = if k = u then none else mapGet l u := by
  induction l with
  | nil => simp [mapErase, mapGet]
  | cons kv rest ih =>
    obtain ⟨k1, v1⟩ := kv
    by_cases hk : k1 = k
    · rw [show mapErase ((k1, v1) :: rest) k = mapErase rest k by
        simp [mapErase, hk], ih]
      by_cases hku : k = u
      · simp [hku]
      · have h1 : k1 ≠ u := by rw [hk]; exact hku
        simp [mapGet, h1, hku]
    · rw [show mapErase ((k1, v1) :: rest) k = (k1, v1) :: mapErase rest k by
        simp [mapErase, hk]]
      by_cases hu : k1 = u
      · have hku : k ≠ u := fun h => hk (by rw [hu, h])
        simp [mapGet, hu, hku]
      · simp [mapGet, hu, ih]

theorem mapGet_mapSet (l : List (String × ModelWorkerTextMateTokenizer))
    (k : String) (v : ModelWorkerTextMateTokenizer) (u : String) :
    mapGet (mapSet l k v) u = if k = u then some v else mapGet l u := by
  by_cases h : k = u <;> simp [mapSet, mapGet, h, mapGet_mapErase]

theorem mem_mapErase (l : List (String × ModelWorkerTextMateTokenizer))
    (k : String) (kv : String × ModelWorkerTextMateTokenizer) :
    kv ∈ mapErase l k → kv ∈ l := by
  induction l with
  | nil => simp [mapErase]
  | cons hd rest ih =>
    by_cases h : hd.1 = k
    · intro hm
      exact List.mem_cons_of_mem _ (ih (by simpa [mapErase, h] using hm))
    · intro hm
      rcases (by simpa [mapErase, h] using hm : kv = hd ∨ kv ∈ mapErase rest k)
        with h1 | h1
      · exact h1 ▸ List.mem_cons_self hd rest
      · exact List.mem_cons_of_mem _ (ih h1)

theorem mem_mapSet (l : List (String × ModelWorkerTextMateTokenizer))
    (k : String) (v : ModelWorkerTextMateTokenizer)
    (kv : String × ModelWorkerTextMateTokenizer) :
    kv ∈ mapSet l k v → kv = (k, v) ∨ kv ∈ l := by
  intro h
  rcases (by simpa [mapSet] using h : kv = (k, v) ∨ kv ∈ mapErase l k)
    with h1 | h1
  · exact Or.inl h1
  · exact Or.inr (mem_mapErase l k kv h1)

theorem mapGet_some_mem (l : List (String × ModelWorkerTextMateTokenizer))
    (u : String) (t : ModelWorkerTextMateTokenizer) :
    mapGet l u = some t → (u, t) ∈ l := by
  induction l with
  | nil => simp [mapGet]
  | cons kv rest ih =>
    obtain ⟨k1, v1⟩ := kv
    by_cases h : k1 = u
    · intro hg
      have hv : v1 = t := by simpa [mapGet, h] using hg
      subst h; subst hv
      exact List.mem_cons_self _ _
    · intro hg
      exact List.mem_cons_of_mem _ (ih (by simpa [mapGet, h] using hg))

theorem mapGet_none_key (l : List (String × ModelWorkerTextMateTokenizer))
    (u : String) :
    mapGet l u = none → ∀ kv ∈ l, kv.1 ≠ u := by
  induction l with
  | nil => simp
  | cons kv rest ih =>
    by_cases h : kv.1 = u
    · simp [mapGet, h]
    · intro hg kv' hm
      rcases List.mem_cons.mp hm with h1 | h1
      · exact h1 ▸ h
      · exact ih (by simpa [mapGet, h] using hg) kv' h1

theorem lookupModel_some_uri (ms : List TextModel) (u : String)
    (m : TextModel) : lookupModel ms u = some m → m.uri = u := by
  induction ms with
  | nil => simp [lookupModel]
  | cons m0 rest ih =>
    by_cases h : m0.uri = u
    · intro hg
      have : m0 = m := by simpa [lookupModel, h] using hg
      exact this ▸ h
    · intro hg
      exact ih (by simpa [lookupModel, h] using hg)

theorem create_modelUri (m : TextModel) :
    (ModelWorkerTextMateTokenizer.create m).1._modelUri = m.uri := by
  unfold ModelWorkerTextMateTokenizer.create
    ModelWorkerTextMateTokenizer._onDidChangeAttached
    ModelWorkerTextMateTokenizer._beginSync
  cases h : m.attached <;> simp [h]

theorem create_msgs (m : TextModel) :
    ∀ msg ∈ (ModelWorkerTextMateTokenizer.create m).2, msg.msgUri = m.uri := by
  unfold ModelWorkerTextMateTokenizer.create
    ModelWorkerTextMateTokenizer._onDidChangeAttached
    ModelWorkerTextMateTokenizer._beginSync
  cases h : m.attached <;> simp [h, WorkerMsg.msgUri]

theorem onModelAdded_refs (s : TextMateService) (m : TextModel) :
    ((s._onModelAdded m).1)._workerProxy = s._workerProxy ∧
    ((s._onModelAdded m).1)._worker = s._worker ∧
    ((s._onModelAdded m).1).disposedWorkers = s.disposedWorkers := by
  unfold TextMateService._onModelAdded
  cases hp : s._workerProxy with
  | none => simp [hp]
  | some p => by_cases hl : m.tooLarge <;> simp [hl, hp]

theorem onModelAdded_noProxy (s : TextMateService) (m : TextModel)
    (h : s._workerProxy = none) : s._onModelAdded m = (s, []) := by
  unfold TextMateService._onModelAdded
  rw [h]

theorem onModelAdded_tooLarge (s : TextMateService) (m : TextModel)
    (h : m.tooLarge = true) : s._onModelAdded m = (s, []) := by
  unfold TextMateService._onModelAdded
  cases s._workerProxy <;> simp [h]

theorem onModelAdded_get_ne (s : TextMateService) (m : TextModel) (u : String)
    (h : m.uri ≠ u) :
    mapGet ((s._onModelAdded m).1)._tokenizers u = mapGet s._tokenizers u := by
  unfold TextMateService._onModelAdded
  cases hp : s._workerProxy with
  | none => rfl
  | some p =>
    by_cases hl : m.tooLarge <;> simp [hl, mapGet_mapSet, h]

theorem onModelAdded_get_self (s : TextMateService) (m : TextModel) (p : Nat)
    (hp : s._workerProxy = some p) (hl : m.tooLarge = false) :
    mapGet ((s._onModelAdded m).1)._tokenizers m.uri =
      some (ModelWorkerTextMateTokenizer.create m).1 := by
  unfold TextMateService._onModelAdded
  rw [hp]
  simp [hl, mapGet_mapSet]

theorem onModelAdded_msgs (s : TextMateService) (m : TextModel) :
    ∀ msg ∈ (s._onModelAdded m).2,
      m.tooLarge = false ∧ msg.msgUri = m.uri := by
  unfold TextMateService._onModelAdded
  cases hp : s._workerProxy with
  | none => simp
  | some p =>
    by_cases hl : m.tooLarge
    · simp [hl]
    · intro msg hm
      refine ⟨by simpa using hl, create_msgs m msg ?_⟩
      simpa [hl] using hm

theorem onModelAdded_mem (s : TextMateService) (m : TextModel)
    (kv : String × ModelWorkerTextMateTokenizer) :
    kv ∈ ((s._onModelAdded m).1)._tokenizers →
      kv = (m.uri, (ModelWorkerTextMateTokenizer.create m).1) ∨
      kv ∈ s._tokenizers := by
  unfold TextMateService._onModelAdded
  cases hp : s._workerProxy with
  | none => intro h; exact Or.inr h
  | some p =>
    by_cases hl : m.tooLarge
    · simp only [hl, if_true]
      intro h; exact Or.inr h
    · simp only [hl, if_false]
      intro h
      exact mem_mapSet _ _ _ _ (by simpa using h)

theorem foldAddAux_refs (ms : List TextModel) :
    ∀ (s : TextMateService) (acc : List WorkerMsg),
      ((foldAddAux s acc ms).1)._workerProxy = s._workerProxy ∧
      ((foldAddAux s acc ms).1)._worker = s._worker := by
  induction ms with
  | nil => intro s acc; exact ⟨rfl, rfl⟩
  | cons m rest ih =>
    intro s acc
    have h := onModelAdded_refs s m
    have h2 := ih (s._onModelAdded m).1 (acc ++ (s._onModelAdded m).2)
    exact ⟨h2.1.trans h.1, h2.2.trans h.2.1⟩

theorem foldAddAux_get_ne (ms : List TextModel) (u : String) :
    ∀ (s : TextMateService) (acc : List WorkerMsg),
      (∀ m ∈ ms, m.uri ≠ u) →
      mapGet ((foldAddAux s acc ms).1)._tokenizers u =
        mapGet s._tokenizers u := by
  induction ms with
  | nil => intro s acc _; rfl
  | cons m rest ih =>
    intro s acc h
    have h1 := ih (s._onModelAdded m).1 (acc ++ (s._onModelAdded m).2)
      (fun m' hm' => h m' (List.mem_cons_of_mem _ hm'))
    exact h1.trans (onModelAdded_get_ne s m u (h m (List.mem_cons_self _ _)))

theorem foldAddAux_get_none (ms : List TextModel) (u : String) :
    ∀ (s : TextMateService) (acc : List WorkerMsg),
      (∀ m ∈ ms, m.uri = u → m.tooLarge = true) →
      mapGet s._tokenizers u = none →
      mapGet ((foldAddAux s acc ms).1)._tokenizers u = none := by
  induction ms with
  | nil => intro s acc _ h0; exact h0
  | cons m rest ih =>
    intro s acc h h0
    apply ih (s._onModelAdded m).1 (acc ++ (s._onModelAdded m).2)
      (fun m' hm' => h m' (List.mem_cons_of_mem _ hm'))
    by_cases hu : m.uri = u
    · rw [onModelAdded_tooLarge s m (h m (List.mem_cons_self _ _) hu)]
      exact h0
    · rw [onModelAdded_get_ne s m u hu]
      exact h0

theorem foldAddAux_msgs (ms : List TextModel) :
    ∀ (s : TextMateService) (acc : List WorkerMsg) (msg : WorkerMsg),
      msg ∈ (foldAddAux s acc ms).2 →
      msg ∈ acc ∨ ∃ m ∈ ms, m.tooLarge = false ∧ msg.msgUri = m.uri := by
  induction ms with
  | nil => intro s acc msg h; exact Or.inl h
  | cons m rest ih =>
    intro s acc msg h
    rcases ih (s._onModelAdded m).1 (acc ++ (s._onModelAdded m).2) msg h with
      h1 | ⟨m', hm', hm2⟩
    · rcases List.mem_append.mp h1 with h2 | h2
      · exact Or.inl h2
      · have h3 := onModelAdded_msgs s m msg h2
        exact Or.inr ⟨m, List.mem_cons_self _ _, h3⟩
    · exact Or.inr ⟨m', List.mem_cons_of_mem _ hm', hm2⟩

theorem foldAddAux_mem (ms : List TextModel) :
    ∀ (s : TextMateService) (acc : List WorkerMsg)
      (kv : String × ModelWorkerTextMateTokenizer),
      kv ∈ ((foldAddAux s acc ms).1)._tokenizers →
      kv ∈ s._tokenizers ∨
      ∃ m ∈ ms, kv = (m.uri, (ModelWorkerTextMateTokenizer.create m).1) := by
  induction ms with
  | nil => intro s acc kv h; exact Or.inl h
  | cons m rest ih =>
    intro s acc kv h
    rcases ih (s._onModelAdded m).1 (acc ++ (s._onModelAdded m).2) kv h with
      h1 | ⟨m', hm', hm2⟩
    · rcases onModelAdded_mem s m kv h1 with h2 | h2
      · exact Or.inr ⟨m, List.mem_cons_self _ _, h2⟩
      · exact Or.inl h2
    · exact Or.inr ⟨m', List.mem_cons_of_mem _ hm', hm2⟩

theorem foldAddAux_get_eligible (ms : List TextModel) (p : Nat) :
    ∀ (s : TextMateService) (acc : List WorkerMsg),
      s._workerProxy = some p →
      ms.Pairwise (fun a b => a.uri ≠ b.uri) →
      ∀ m ∈ ms,
        mapGet ((foldAddAux s acc ms).1)._tokenizers m.uri =
          (if m.tooLarge then mapGet s._tokenizers m.uri
           else some (ModelWorkerTextMateTokenizer.create m).1) := by
  induction ms with
  | nil => intro s acc _ _ m hm; cases hm
  | cons m0 rest ih =>
    intro s acc hp hpair m hm
    have hpair0 : ∀ b ∈ rest, m0.uri ≠ b.uri :=
      (List.pairwise_cons.mp hpair).1
    have hpairR : rest.Pairwise (fun a b => a.uri ≠ b.uri) :=
      (List.pairwise_cons.mp hpair).2
    have hp1 : ((s._onModelAdded m0).1)._workerProxy = some p :=
      (onModelAdded_refs s m0).1.trans hp
    rcases List.mem_cons.mp hm with h1 | h1
    · subst h1
      have hne : ∀ m' ∈ rest, m'.uri ≠ m.uri :=
        fun m' hm' => fun h => (hpair0 m' hm') h.symm
      have hrest := foldAddAux_get_ne rest m.uri (s._onModelAdded m).1
        (acc ++ (s._onModelAdded m).2) hne
      rw [show foldAddAux s acc (m :: rest) =
        foldAddAux (s._onModelAdded m).1 (acc ++ (s._onModelAdded m).2) rest
        from rfl, hrest]
      by_cases hl : m.tooLarge
      · rw [onModelAdded_tooLarge s m hl]
        simp [hl]
      · rw [onModelAdded_get_self s m p hp (by simpa using hl)]
        simp [hl]
    · have hih := ih (s._onModelAdded m0).1 (acc ++ (s._onModelAdded m0).2)
        hp1 hpairR m h1
      rw [show foldAddAux s acc (m0 :: rest) =
        foldAddAux (s._onModelAdded m0).1 (acc ++ (s._onModelAdded m0).2) rest
        from rfl, hih]
      by_cases hl : m.tooLarge
      · simp only [hl, if_true]
        exact onModelAdded_get_ne s m0 m.uri (hpair0 m h1)
      · simp [hl]

theorem onDidChangeAttached_modelUri (t : ModelWorkerTextMateTokenizer)
    (m : TextModel) :
    ((t._onDidChangeAttached m).1)._modelUri = t._modelUri := by
  unfold ModelWorkerTextMateTokenizer._onDidChangeAttached
    ModelWorkerTextMateTokenizer._beginSync
    ModelWorkerTextMateTokenizer._endSync
  cases ha : m.attached <;> cases hs : t._isSynced <;> simp [ha, hs]

theorem onDidChangeAttached_msgs (t : ModelWorkerTextMateTokenizer)
    (m : TextModel) :
    ∀ msg ∈ (t._onDidChangeAttached m).2,
      msg.msgUri = m.uri ∨ msg.msgUri = t._modelUri := by
  unfold ModelWorkerTextMateTokenizer._onDidChangeAttached
    ModelWorkerTextMateTokenizer._beginSync
    ModelWorkerTextMateTokenizer._endSync
  cases ha : m.attached <;> cases hs : t._isSynced <;>
    simp [ha, hs, WorkerMsg.msgUri]

theorem onDidChangeLanguage_state (t : ModelWorkerTextMateTokenizer)
    (m : TextModel) : (t.onDidChangeLanguage m).1 = t := by
  unfold ModelWorkerTextMateTokenizer.onDidChangeLanguage
  cases hs : t._isSynced <;> simp [hs]

theorem onDidChangeLanguage_msgs (t : ModelWorkerTextMateTokenizer)
    (m : TextModel) :
    ∀ msg ∈ (t.onDidChangeLanguage m).2, msg.msgUri = t._modelUri := by
  unfold ModelWorkerTextMateTokenizer.onDidChangeLanguage
  cases hs : t._isSynced <;> simp [hs, WorkerMsg.msgUri]

/-- Disposing a list of tokenizers folds to one removal message per entry. -/
theorem killWorker_msgs (l : List (String × ModelWorkerTextMateTokenizer))
    (acc : List WorkerMsg) :
    l.foldl (fun a kv => a ++ (kv.2.dispose).2) acc =
      acc ++ l.map (fun kv => WorkerMsg.acceptRemovedModel kv.2._modelUri) := by
  induction l generalizing acc with
  | nil => simp
  | cons kv rest ih =>
    rw [List.foldl_cons, ih]
    simp [ModelWorkerTextMateTokenizer.dispose,
      ModelWorkerTextMateTokenizer._endSync]

theorem killWorker_parts (s : TextMateService) :
    (s._killWorker).1._tokenizers = [] ∧
    (s._killWorker).2 =
      s._tokenizers.map
        (fun kv => WorkerMsg.acceptRemovedModel kv.2._modelUri) := by
  unfold TextMateService._killWorker
  exact ⟨rfl, by simpa using killWorker_msgs s._tokenizers []⟩

theorem onDidCreateGrammarFactory_parts (s : TextMateService) (flag : Bool)
    (w : Nat) :
    ((s._onDidCreateGrammarFactory flag w).1)._tokenizers = [] ∧
    ((s._onDidCreateGrammarFactory flag w).2) =
      s._tokenizers.map
        (fun kv => WorkerMsg.acceptRemovedModel kv.2._modelUri) := by
  unfold TextMateService._onDidCreateGrammarFactory
  cases flag <;> simp [killWorker_parts s]

/-- The function `dispatch` never touches the model service. -/
theorem dispatch_models (st : SysState) (u' : String)
    (h : ModelWorkerTextMateTokenizer →
      ModelWorkerTextMateTokenizer × List WorkerMsg) :
    (dispatch st u' h).models = st.models := by
  unfold dispatch
  cases hg : mapGet st.service._tokenizers u' <;> rfl

/-- Preservation of `InvNoSync` through an event dispatched to the tokenizer
(if any) registered at `u'`, for any handler that keeps the tokenizer's uri
and only emits messages about the tokenizer's own model. -/
theorem dispatch_inv (u : String) (st : SysState) (u' : String)
    (h : ModelWorkerTextMateTokenizer →
      ModelWorkerTextMateTokenizer × List WorkerMsg)
    (hA : ∀ m ∈ st.models, m.uri = u → m.tooLarge = true)
    (hB : mapGet st.service._tokenizers u = none)
    (hK : ∀ kv ∈ st.service._tokenizers, kv.2._modelUri = kv.1)
    (hT : ∀ msg ∈ st.trace, msg.msgUri ≠ u)
    (hstate : ∀ t, ((h t).1)._modelUri = t._modelUri)
    (hmsg : ∀ t msg, msg ∈ (h t).2 →
      msg.msgUri = t._modelUri ∨ msg.msgUri = u') :
    (∀ m ∈ (dispatch st u' h).models, m.uri = u → m.tooLarge = true) ∧
    mapGet (dispatch st u' h).service._tokenizers u = none ∧
    (∀ kv ∈ (dispatch st u' h).service._tokenizers, kv.2._modelUri = kv.1) ∧
    (∀ msg ∈ (dispatch st u' h).trace, msg.msgUri ≠ u) := by
  unfold dispatch
  cases hg : mapGet st.service._tokenizers u' with
  | none => exact ⟨hA, hB, hK, hT⟩
  | some t =>
    have hu' : u' ≠ u := by
      intro he
      rw [he, hB] at hg
      cases hg
    have htu : t._modelUri = u' := hK (u', t) (mapGet_some_mem _ _ _ hg)
    refine ⟨hA, ?_, ?_, ?_⟩
    · show mapGet (mapSet st.service._tokenizers u' (h t).1) u = none
      rw [mapGet_mapSet, if_neg hu']
      exact hB
    · intro kv hkv
      rcases mem_mapSet _ _ _ kv
        (by simpa using hkv : kv ∈ mapSet st.service._tokenizers u' (h t).1)
        with h1 | h1
      · rw [h1]
        show ((h t).1)._modelUri = u'
        rw [hstate t, htu]
      · exact hK kv h1
    · intro msg hm
      rcases List.mem_append.mp (by simpa using hm :
          msg ∈ st.trace ++ (h t).2) with h1 | h1
      · exact hT msg h1
      · rcases hmsg t msg h1 with h2 | h2
        · rw [h2, htu]; exact hu'
        · rw [h2]; exact hu'

/-- External-contract well-formedness of one event with respect to uri `u`:
any model added under uri `u` is oversized. All other events are free. -/
def eventOk (u : String) : Event → Bool
  | .modelAdded m => if m.uri = u then m.tooLarge else true
  | _ => true

/-- The facts that make uri `u` invisible to the worker: every model of the
model service with uri `u` is oversized, no tokenizer is registered at `u`,
every registered tokenizer sits at the key of its own model, and no message
about `u` has ever been sent. -/
def InvNoSync (u : String) (st : SysState) : Prop :=
  (∀ m ∈ st.models, m.uri = u → m.tooLarge = true) ∧
  mapGet st.service._tokenizers u = none ∧
  (∀ kv ∈ st.service._tokenizers, kv.2._modelUri = kv.1) ∧
  (∀ msg ∈ st.trace, msg.msgUri ≠ u)

/-- Updating models with a function that keeps uri and size keeps the
oversized-only fact. -/
theorem updateModel_pres (ms : List TextModel) (u : String)
    (f : TextModel → TextModel) (u0 : String)
    (hf : ∀ m, (f m).uri = m.uri ∧ (f m).tooLarge = m.tooLarge)
    (h : ∀ m ∈ ms, m.uri = u0 → m.tooLarge = true) :
    ∀ m' ∈ updateModel ms u f, m'.uri = u0 → m'.tooLarge = true := by
  intro m' hm'
  rcases List.mem_map.mp hm' with ⟨m, hm, he⟩
  by_cases hu : m.uri = u
  · rw [← he, if_pos hu, (hf m).1, (hf m).2]
    exact h m hm
  · rw [← he, if_neg hu]
    exact h m hm

theorem onDidChangeContent_state (t : ModelWorkerTextMateTokenizer)
    (e : ModelContentChangedEvent) : (t.onDidChangeContent e).1 = t := by
  unfold ModelWorkerTextMateTokenizer.onDidChangeContent
  cases hs : t._isSynced <;> simp [hs]

theorem onDidChangeContent_msgs (t : ModelWorkerTextMateTokenizer)
    (e : ModelContentChangedEvent) :
    ∀ msg ∈ (t.onDidChangeContent e).2, msg.msgUri = t._modelUri := by
  unfold ModelWorkerTextMateTokenizer.onDidChangeContent
  cases hs : t._isSynced <;> simp [hs, WorkerMsg.msgUri]

/-- One step of the system preserves `InvNoSync u`, for any event that
satisfies the external contract `eventOk u`. -/
theorem step_inv (flag : Bool) (u : String) (st : SysState) (ev : Event)
    (hInv : InvNoSync u st) (hok : eventOk u ev = true) :
    InvNoSync u (step flag st ev) := by
  obtain ⟨hA, hB, hK, hT⟩ := hInv
  cases ev with
  | modelAdded m =>
    simp only [step]
    cases hl : lookupModel st.models m.uri with
    | some m0 => exact ⟨hA, hB, hK, hT⟩
    | none =>
      have hok' : m.uri = u → m.tooLarge = true := by
        intro he
        have h1 : eventOk u (Event.modelAdded m) = m.tooLarge := by
          simp [eventOk, he]
        rw [h1] at hok
        exact hok
      refine ⟨?_, ?_, ?_, ?_⟩
      · show ∀ m' ∈ st.models ++ [m], m'.uri = u → m'.tooLarge = true
        intro m' hm'
        rcases List.mem_append.mp hm' with h1 | h1
        · exact hA m' h1
        · rw [List.mem_singleton.mp h1]
          exact hok'
      · show mapGet ((st.service._onModelAdded m).1)._tokenizers u = none
        by_cases hu : m.uri = u
        · have h1 : st.service._onModelAdded m = (st.service, []) :=
            onModelAdded_tooLarge _ _ (hok' hu)
          rw [h1]
          exact hB
        · rw [onModelAdded_get_ne _ _ _ hu]
          exact hB
      · show ∀ kv ∈ ((st.service._onModelAdded m).1)._tokenizers,
          kv.2._modelUri = kv.1
        intro kv hkv
        rcases onModelAdded_mem _ _ _ hkv with h1 | h1
        · rw [h1]
          exact create_modelUri m
        · exact hK kv h1
      · show ∀ msg ∈ st.trace ++ (st.service._onModelAdded m).2,
          msg.msgUri ≠ u
        intro msg hm
        rcases List.mem_append.mp hm with h1 | h1
        · exact hT msg h1
        · obtain ⟨hlarge, huri⟩ := onModelAdded_msgs _ _ _ h1
          rw [huri]
          intro he
          rw [hok' he] at hlarge
          exact Bool.noConfusion hlarge
  | modelRemoved u' =>
    simp only [step]
    cases hl : lookupModel st.models u' with
    | none => exact ⟨hA, hB, hK, hT⟩
    | some m0 =>
      have hrem : (st.service._onModelRemoved u' = (st.service, [])) ∨
          (∃ t, mapGet st.service._tokenizers u' = some t ∧
            st.service._onModelRemoved u' =
              ({ st.service with
                  _tokenizers := mapErase st.service._tokenizers u' },
               [WorkerMsg.acceptRemovedModel t._modelUri])) := by
        unfold TextMateService._onModelRemoved
        cases hg : mapGet st.service._tokenizers u' with
        | none => exact Or.inl rfl
        | some t => exact Or.inr ⟨t, rfl, rfl⟩
      rcases hrem with heq | ⟨t, hg, heq⟩
      · rw [heq]
        refine ⟨?_, hB, hK, ?_⟩
        · intro m' hm'
          exact hA m' (List.mem_of_mem_filter hm')
        · intro msg hm
          rcases List.mem_append.mp hm with h1 | h1
          · exact hT msg h1
          · cases h1
      · rw [heq]
        have hu' : u' ≠ u := by
          intro he
          rw [he, hB] at hg
          cases hg
        have htu : t._modelUri = u' := hK (u', t) (mapGet_some_mem _ _ _ hg)
        refine ⟨?_, ?_, ?_, ?_⟩
        · intro m' hm'
          exact hA m' (List.mem_of_mem_filter hm')
        · show mapGet (mapErase st.service._tokenizers u') u = none
          rw [mapGet_mapErase, if_neg hu']
          exact hB
        · intro kv hkv
          exact hK kv (mem_mapErase _ _ _ hkv)
        · intro msg hm
          rcases List.mem_append.mp hm with h1 | h1
          · exact hT msg h1
          · rw [List.mem_singleton.mp h1]
            show t._modelUri ≠ u
            rw [htu]
            exact hu'
  | attachChange u' b =>
    simp only [step]
    cases hl : lookupModel st.models u' with
    | none => exact ⟨hA, hB, hK, hT⟩
    | some m0 =>
      have hm0 : m0.uri = u' := lookupModel_some_uri _ _ _ hl
      have hAup : ∀ m' ∈ updateModel st.models u'
          (fun m => { m with attached := b }), m'.uri = u →
          m'.tooLarge = true :=
        updateModel_pres st.models u' _ u (fun m => ⟨rfl, rfl⟩) hA
      exact dispatch_inv u
        { st with models := updateModel st.models u' fun m => { m with attached := b } } u'
        (fun t => t._onDidChangeAttached { m0 with attached := b })
        hAup hB hK hT
        (fun t => onDidChangeAttached_modelUri t _)
        (fun t msg hmsg => by
          rcases onDidChangeAttached_msgs t { m0 with attached := b } msg
            hmsg with h1 | h1
          · right
            rw [h1]
            exact hm0
          · left
            exact h1)
  | contentChange u' v ls e =>
    simp only [step]
    cases hl : lookupModel st.models u' with
    | none => exact ⟨hA, hB, hK, hT⟩
    | some m0 =>
      have hAup : ∀ m' ∈ updateModel st.models u'
          (fun m => { m with versionId := v, lines := ls }), m'.uri = u →
          m'.tooLarge = true :=
        updateModel_pres st.models u' _ u (fun m => ⟨rfl, rfl⟩) hA
      exact dispatch_inv u
        { st with models := updateModel st.models u' fun m => { m with versionId := v, lines := ls } } u'
        (fun t => t.onDidChangeContent e)
        hAup hB hK hT
        (fun t => by rw [onDidChangeContent_state])
        (fun t msg hmsg => Or.inl (onDidChangeContent_msgs t e msg hmsg))
  | languageChange u' lang =>
    simp only [step]
    cases hl : lookupModel st.models u' with
    | none => exact ⟨hA, hB, hK, hT⟩
    | some m0 =>
      have hAup : ∀ m' ∈ updateModel st.models u'
          (fun m => { m with languageId := lang }), m'.uri = u →
          m'.tooLarge = true :=
        updateModel_pres st.models u' _ u (fun m => ⟨rfl, rfl⟩) hA
      exact dispatch_inv u
        { st with models := updateModel st.models u' fun m => { m with languageId := lang } } u'
        (fun t => t.onDidChangeLanguage { m0 with languageId := lang })
        hAup hB hK hT
        (fun t => by rw [onDidChangeLanguage_state])
        (fun t msg hmsg =>
          Or.inl (onDidChangeLanguage_msgs t _ msg hmsg))
  | grammarCreated w =>
    simp only [step]
    obtain ⟨hTok, hMsgs⟩ := onDidCreateGrammarFactory_parts st.service flag w
    refine ⟨hA, ?_, ?_, ?_⟩
    · show mapGet
        ((st.service._onDidCreateGrammarFactory flag w).1)._tokenizers u =
        none
      rw [hTok]
      rfl
    · intro kv hkv
      rw [hTok] at hkv
      cases hkv
    · intro msg hm
      rcases List.mem_append.mp hm with h1 | h1
      · exact hT msg h1
      · rw [hMsgs] at h1
        rcases List.mem_map.mp h1 with ⟨kv, hkv, he⟩
        rw [← he]
        show kv.2._modelUri ≠ u
        rw [hK kv hkv]
        exact mapGet_none_key _ _ hB kv hkv
  | grammarDisposed =>
    simp only [step]
    obtain ⟨hTok, hMsgs⟩ := killWorker_parts st.service
    refine ⟨hA, ?_, ?_, ?_⟩
    · show mapGet ((st.service._killWorker).1)._tokenizers u = none
      rw [hTok]
      rfl
    · intro kv hkv
      have hkv' : kv ∈ ((st.service._killWorker).1)._tokenizers := hkv
      rw [hTok] at hkv'
      cases hkv'
    · intro msg hm
      rcases List.mem_append.mp (hm :
          msg ∈ st.trace ++ (st.service._killWorker).2) with h1 | h1
      · exact hT msg h1
      · have h1' : msg ∈ (st.service._killWorker).2 := h1
        rw [hMsgs] at h1'
        rcases List.mem_map.mp h1' with ⟨kv, hkv, he⟩
        rw [← he]
        show kv.2._modelUri ≠ u
        rw [hK kv hkv]
        exact mapGet_none_key _ _ hB kv hkv
  | proxyResolved w p =>
    simp only [step]
    by_cases hw : st.service._worker = some w
    · have hr : st.service.getProxyResolved w p st.models =
          foldAddAux { st.service with _workerProxy := some p } []
            st.models := by
        unfold TextMateService.getProxyResolved
        rw [if_pos hw, foldAdd_eq]
      rw [hr]
      refine ⟨hA, ?_, ?_, ?_⟩
      · exact foldAddAux_get_none st.models u _ [] hA hB
      · intro kv hkv
        rcases foldAddAux_mem st.models _ [] kv hkv with h1 | ⟨m, hm, he⟩
        · exact hK kv h1
        · rw [he]
          exact create_modelUri m
      · intro msg hm
        rcases List.mem_append.mp hm with h1 | h1
        · exact hT msg h1
        · rcases foldAddAux_msgs st.models _ [] msg h1 with
            h2 | ⟨m, hm2, hlarge, huri⟩
          · cases h2
          · rw [huri]
            intro he
            rw [hA m hm2 he] at hlarge
            exact Bool.noConfusion hlarge
    · have hr : st.service.getProxyResolved w p st.models =
          (st.service, []) := by
        unfold TextMateService.getProxyResolved
        rw [if_neg hw]
      rw [hr]
      refine ⟨hA, hB, hK, ?_⟩
      intro msg hm
      rcases List.mem_append.mp hm with h1 | h1
      · exact hT msg h1
      · cases h1

/-- The invariant `InvNoSync` is preserved along any event fold. -/
theorem foldl_inv (flag : Bool) (u : String) :
    ∀ (es : List Event) (st : SysState), InvNoSync u st →
      (∀ ev ∈ es, eventOk u ev = true) →
      InvNoSync u (es.foldl (step flag) st) := by
  intro es
  induction es with
  | nil => intro st h _; exact h
  | cons ev rest ih =>
    intro st h hok
    exact ih (step flag st ev)
      (step_inv flag u st ev h (hok ev (List.mem_cons_self _ _)))
      (fun e he => hok e (List.mem_cons_of_mem _ he))

/-- The invariant `InvNoSync` holds at the end of every well-formed run. -/
theorem run_inv (flag : Bool) (u : String) (es : List Event)
    (hok : ∀ ev ∈ es, eventOk u ev = true) : InvNoSync u (run flag es) := by
  apply foldl_inv flag u es initState _ hok
  refine ⟨?_, rfl, ?_, ?_⟩
  · intro m hm
    cases hm
  · intro kv hkv
    cases hkv
  · intro msg hm
    cases hm

/-- A stale service whose live worker differs from the one a pending future
was spawned for. -/
def sStale : TextMateService :=
  { _worker := some 2, _workerProxy := none, _tokenizers := [],
    disposedWorkers := [] }

/-- A service right after spawning worker 1, with `getProxy` pending. -/
def sPending : TextMateService :=
  { _worker := some 1, _workerProxy := none, _tokenizers := [],
    disposedWorkers := [] }

/-- A detached, not-oversized model. -/
def mDet : TextModel :=
  { uri := "d", versionId := 1, lines := ["x"], eol := "\n",
    languageId := 3, attached := false, tooLarge := false }

/-- An oversized model. -/
def mBig : TextModel :=
  { uri := "big", versionId := 1, lines := ["y"], eol := "\n",
    languageId := 3, attached := true, tooLarge := true }

/-- C5 counterexample: the claim restricts catch-up to buffers that are
"attached and not oversized", but the callback creates a synchronizer for a
detached, not-oversized buffer too — `_onModelAdded` never checks the attach
state. -/
theorem C5_counterexample_detached_buffer :
    mDet.attached = false ∧
    (mapGet ((sPending.getProxyResolved 1 7 [mDet]).1._tokenizers)
      "d").isSome = true := by
  refine ⟨by decide, by decide⟩

/-- C5 amended: when the spawn future resolves after the worker it was
spawned for is no longer live, the callback discards the result — no state
change, no synchronizer, no message. When the worker is still live, the
callback stores the proxy and performs catch-up, creating a synchronizer for
exactly the currently known not-oversized buffers, regardless of their attach
state (attached ones additionally begin sync immediately). -/
theorem C5_spawn_race (s : TextMateService) (w p : Nat)
    (ms : List TextModel) :
    (s._worker ≠ some w → s.getProxyResolved w p ms = (s, [])) ∧
    (s._worker = some w → s._tokenizers = [] →
      ms.Pairwise (fun a b => a.uri ≠ b.uri) →
      (s.getProxyResolved w p ms).1._workerProxy = some p ∧
      (s.getProxyResolved w p ms).1._worker = some w ∧
      (∀ m ∈ ms,
        mapGet (s.getProxyResolved w p ms).1._tokenizers m.uri =
          (if m.tooLarge then none
           else some (ModelWorkerTextMateTokenizer.create m).1))) := by
  constructor
  · intro h
    unfold TextMateService.getProxyResolved
    rw [if_neg h]
  · intro hw ht hpair
    have hres : s.getProxyResolved w p ms =
        foldAddAux { s with _workerProxy := some p } [] ms := by
      unfold TextMateService.getProxyResolved
      rw [if_pos hw, foldAdd_eq]
    refine ⟨?_, ?_, ?_⟩
    · rw [hres]; exact (foldAddAux_refs ms _ []).1
    · rw [hres]; exact ((foldAddAux_refs ms _ []).2).trans hw
    · intro m hm
      rw [hres]
      have h := foldAddAux_get_eligible ms p { s with _workerProxy := some p }
        [] rfl hpair m hm
      rw [h]
      by_cases hl : m.tooLarge
      · simp [hl, ht, mapGet]
      · simp [hl]

/-- Witness for `C5_spawn_race`: the stale branch at a concrete stale
service, and the live branch at a concrete pending service holding one
detached not-oversized model and one oversized model. -/
theorem C5_spawn_race_witness :
    sStale.getProxyResolved 1 7 [mDet, mBig] = (sStale, []) ∧
    mapGet ((sPending.getProxyResolved 1 7 [mDet, mBig]).1._tokenizers) "d" =
      some (ModelWorkerTextMateTokenizer.create mDet).1 ∧
    mapGet ((sPending.getProxyResolved 1 7 [mDet, mBig]).1._tokenizers)
      "big" = none := by
  refine ⟨(C5_spawn_race sStale 1 7 [mDet, mBig]).1 (by decide), ?_, ?_⟩
  · have h := ((C5_spawn_race sPending 1 7 [mDet, mBig]).2 (by decide)
      (by decide) (by decide)).2.2 mDet (by simp)
    rw [show mDet.tooLarge = false from rfl] at h
    simpa [mDet] using h
  · have h := ((C5_spawn_race sPending 1 7 [mDet, mBig]).2 (by decide)
      (by decide) (by decide)).2.2 mBig (by simp)
    rw [show mBig.tooLarge = true from rfl] at h
    simpa [mBig] using h

/-- A small attached, not-oversized model used in the concrete scenarios. -/
def mA : TextModel :=
  { uri := "u", versionId := 1, lines := ["hello"], eol := "\n",
    languageId := 5, attached := true, tooLarge := false }

/-- A concrete content-change event (range, new text, resulting version). -/
def ev1 : ModelContentChangedEvent :=
  { changes := [{ range := { startLineNumber := 1, startColumn := 1,
                             endLineNumber := 1, endColumn := 1 },
                  text := "hi" }],
    versionId := 2 }

/-- A service with a live worker and a resolved proxy. -/
def sResolved : TextMateService :=
  { _worker := some 1, _workerProxy := some 10, _tokenizers := [],
    disposedWorkers := [] }

/-- C8: a buffer-added notification is dropped when no proxy is resolved or
the buffer is oversized, and otherwise registers a fresh synchronizer under
the buffer's uri; and along any event sequence whose added models under uri
`u` are all oversized, no synchronizer for `u` ever exists at the end and no
worker message about `u` is ever sent — for any attach-state changes
whatsoever. -/
theorem C8_buffer_added_eligibility :
    (∀ (s : TextMateService) (m : TextModel),
      s._workerProxy = none → s._onModelAdded m = (s, [])) ∧
    (∀ (s : TextMateService) (m : TextModel),
      m.tooLarge = true → s._onModelAdded m = (s, [])) ∧
    (∀ (s : TextMateService) (m : TextModel) (p : Nat),
      s._workerProxy = some p → m.tooLarge = false →
      mapGet ((s._onModelAdded m).1)._tokenizers m.uri =
        some (ModelWorkerTextMateTokenizer.create m).1) ∧
    (∀ (flag : Bool) (u : String) (es : List Event),
      (∀ ev ∈ es, eventOk u ev = true) →
      mapGet (run flag es).service._tokenizers u = none ∧
      (∀ msg ∈ (run flag es).trace, msg.msgUri ≠ u)) := by
  refine ⟨onModelAdded_noProxy, onModelAdded_tooLarge,
    onModelAdded_get_self, ?_⟩
  intro flag u es hok
  have h := run_inv flag u es hok
  exact ⟨h.2.1, h.2.2.2⟩

/-- Witness for `C8_buffer_added_eligibility`: the no-proxy drop at a service
with a pending future, the oversized drop, a successful registration, and a
run containing an oversized model that gets attached and edited yet never
produces a synchronizer or a message. -/
theorem C8_buffer_added_eligibility_witness :
    (sPending._onModelAdded mA = (sPending, [])) ∧
    (sResolved._onModelAdded mBig = (sResolved, [])) ∧
    (mapGet ((sResolved._onModelAdded mA).1)._tokenizers mA.uri =
      some (ModelWorkerTextMateTokenizer.create mA).1) ∧
    (mapGet (run true [Event.grammarCreated 1, Event.proxyResolved 1 10,
        Event.modelAdded mBig, Event.attachChange "big" true,
        Event.contentChange "big" 2 ["z"] ev1]).service._tokenizers "big" =
      none ∧
     (∀ msg ∈ (run true [Event.grammarCreated 1, Event.proxyResolved 1 10,
        Event.modelAdded mBig, Event.attachChange "big" true,
        Event.contentChange "big" 2 ["z"] ev1]).trace,
        msg.msgUri ≠ "big")) :=
  ⟨C8_buffer_added_eligibility.1 sPending mA rfl,
   C8_buffer_added_eligibility.2.1 sResolved mBig rfl,
   C8_buffer_added_eligibility.2.2.1 sResolved mA 10 rfl rfl,
   C8_buffer_added_eligibility.2.2.2 true "big"
     [Event.grammarCreated 1, Event.proxyResolved 1 10,
      Event.modelAdded mBig, Event.attachChange "big" true,
      Event.contentChange "big" 2 ["z"] ev1] (by decide)⟩

/-- Scenario for the sync-flag invariant: spawn, resolve, add an attached
model, then detach it. -/
def esC1 : List Event :=
  [Event.grammarCreated 1, Event.proxyResolved 1 10, Event.modelAdded mA,
   Event.attachChange "u" false]

/-- Scenario for detach/edit-while-detached/re-attach: spawn, resolve, add an
attached model, detach, edit while detached, re-attach. -/
def esC2 : List Event :=
  [Event.grammarCreated 1, Event.proxyResolved 1 10, Event.modelAdded mA,
   Event.attachChange "u" false, Event.contentChange "u" 2 ["hi"] ev1,
   Event.attachChange "u" true]

/-- Scenario for causal ordering: spawn, resolve, add an attached model,
detach (removal sent), then edit. -/
def esC4 : List Event :=
  [Event.grammarCreated 1, Event.proxyResolved 1 10, Event.modelAdded mA,
   Event.attachChange "u" false, Event.contentChange "u" 2 ["hi"] ev1]

/-- C1: the claim states that at every reachable state a synchronizer is
synced iff its buffer is attached and a proxy is resolved, and in particular
that a detach transition while synced returns it to the unsynced state. The
code violates this: `_endSync` never resets `_isSynced`, so after the
reachable sequence `esC1` (attach, then detach, proxy still resolved) the
registered tokenizer still reports `_isSynced = true` while its model is
detached. -/
theorem C1_sync_invariant_violated :
    (mapGet (run true esC1).service._tokenizers "u").map
        (fun t => t._isSynced) = some true ∧
    (lookupModel (run true esC1).models "u").map
        (fun m => m.attached) = some false ∧
    (run true esC1).service._workerProxy = some 10 := by
  refine ⟨by decide, by decide, by decide⟩

/-- C2: the claim states that after a detach (removal sent), edits while
detached produce no worker messages and a re-attach sends a fresh snapshot.
In the code, after the detach of `esC2` the tokenizer still has
`_isSynced = true`, so the edit while detached IS forwarded
(`acceptModelChanged` is the third message) and the final re-attach sends NO
second snapshot: the whole trace contains exactly one `acceptNewModel`. -/
theorem C2_detach_reattach_violated :
    (run true esC2).trace =
      [WorkerMsg.acceptNewModel "u" 1 ["hello"] "\n" 5,
       WorkerMsg.acceptRemovedModel "u",
       WorkerMsg.acceptModelChanged "u" ev1] := by
  decide

/-- C4: the claim states causal per-uri ordering: no edit message after a
removal and before a new snapshot. On `esC4` the code sends
`acceptModelChanged` directly after `acceptRemovedModel` with no intervening
snapshot, so the trace fails the causal-order check. -/
theorem C4_causal_order_violated :
    (run true esC4).trace =
      [WorkerMsg.acceptNewModel "u" 1 ["hello"] "\n" 5,
       WorkerMsg.acceptRemovedModel "u",
       WorkerMsg.acceptModelChanged "u" ev1] ∧
    causallyOrdered "u" (run true esC4).trace = false := by
  refine ⟨by decide, by decide⟩

/-- The content-change listener leaves the tokenizer state unchanged and
emits the forwarded event exactly when synced. -/
theorem onDidChangeContent_eq (t : ModelWorkerTextMateTokenizer)
    (e : ModelContentChangedEvent) :
    t.onDidChangeContent e =
      (t, if t._isSynced then [WorkerMsg.acceptModelChanged t._modelUri e]
          else []) := by
  unfold ModelWorkerTextMateTokenizer.onDidChangeContent
  cases h : t._isSynced <;> simp [h]

/-- Generalized fold lemma for `processContentChanges`. -/
theorem processContentChanges_fold (t : ModelWorkerTextMateTokenizer)
    (es : List ModelContentChangedEvent) (acc : List WorkerMsg) :
    es.foldl (fun acc e =>
        let r := acc.1.onDidChangeContent e
        (r.1, acc.2 ++ r.2)) (t, acc) =
      (t, acc ++ (if t._isSynced then
        es.map (fun e => WorkerMsg.acceptModelChanged t._modelUri e)
        else [])) := by
  induction es generalizing acc with
  | nil => simp
  | cons e rest ih =>
    cases h : t._isSynced with
    | false =>
      have he : t.onDidChangeContent e = (t, []) := by
        rw [onDidChangeContent_eq]; simp [h]
      simp only [List.foldl_cons, he]
      rw [ih]
      simp [h]
    | true =>
      have he : t.onDidChangeContent e =
          (t, [WorkerMsg.acceptModelChanged t._modelUri e]) := by
        rw [onDidChangeContent_eq]; simp [h]
      simp only [List.foldl_cons, he]
      rw [ih]
      simp [h]

/-- C3: a content-change batch delivered while unsynced produces zero worker
messages and no state change (dropped, not buffered); delivered while synced,
each batch produces exactly one `acceptModelChanged` carrying the event
verbatim, and a run of batches is forwarded in emission order with no
reordering or loss. -/
theorem C3_content_forwarding (t : ModelWorkerTextMateTokenizer)
    (es : List ModelContentChangedEvent) :
    processContentChanges t es =
      (t, if t._isSynced then
        es.map (fun e => WorkerMsg.acceptModelChanged t._modelUri e)
        else []) := by
  unfold processContentChanges
  simpa using processContentChanges_fold t es []

/-- C10: the constructor evaluates the attach state immediately: built on an
attached model it sends the full snapshot at construction time (and is
synced); built on a detached model it sends nothing (and is unsynced). -/
theorem C10_constructor_initial_attach (m : TextModel) :
    (ModelWorkerTextMateTokenizer.create m).1._isSynced = m.attached ∧
    (ModelWorkerTextMateTokenizer.create m).1._modelUri = m.uri ∧
    (ModelWorkerTextMateTokenizer.create m).2 =
      (if m.attached then
        [WorkerMsg.acceptNewModel m.uri m.versionId m.lines m.eol m.languageId]
        else []) := by
  unfold ModelWorkerTextMateTokenizer.create
    ModelWorkerTextMateTokenizer._onDidChangeAttached
    ModelWorkerTextMateTokenizer._beginSync
  cases h : m.attached <;> simp [h]

/-- C7 counterexample: the claim says repeated disposal "causes no additional
effect", but a second `dispose` on an already-disposed tokenizer sends the
removal message again. -/
theorem C7_counterexample_second_dispose_resends :
    ((({ _modelUri := "u", _isSynced := false, subscribed := true } :
        ModelWorkerTextMateTokenizer).dispose).1.dispose).2 =
      [WorkerMsg.acceptRemovedModel "u"] ∧
    ((({ _modelUri := "u", _isSynced := false, subscribed := true } :
        ModelWorkerTextMateTokenizer).dispose).1.dispose).2 ≠ [] := by
  refine ⟨by decide, by decide⟩

/-- C7 amended: a single `dispose` unsubscribes the listeners and
unconditionally sends the removal message exactly once, whatever `_isSynced`
is; teardown is idempotent on the state (`_endSync` leaves the state
untouched, a repeated `dispose` reaches the very same state), but every
repeated `dispose`/`_endSync` re-sends the removal message, which the
receiving side must treat as idempotent. -/
theorem C7_teardown (t : ModelWorkerTextMateTokenizer) :
    (t.dispose).2 = [WorkerMsg.acceptRemovedModel t._modelUri] ∧
    (t.dispose).1.subscribed = false ∧
    (t._endSync).1 = t ∧
    ((t.dispose).1.dispose).1 = (t.dispose).1 ∧
    ((t.dispose).1.dispose).2 =
      [WorkerMsg.acceptRemovedModel t._modelUri] := by
  unfold ModelWorkerTextMateTokenizer.dispose
    ModelWorkerTextMateTokenizer._endSync
  simp

/-- C6: `_killWorker` disposes every registered synchronizer exactly once —
the messages it sends are exactly one removal per map entry — leaves the map
empty, clears the worker and proxy references, and disposes the worker
instance exactly when one was present (`Option.toList none = []` is the
no-worker no-op). -/
theorem C6_killWorker (s : TextMateService) :
    (s._killWorker).1._tokenizers = [] ∧
    (s._killWorker).1._worker = none ∧
    (s._killWorker).1._workerProxy = none ∧
    (s._killWorker).2 =
      s._tokenizers.map
        (fun kv => WorkerMsg.acceptRemovedModel kv.2._modelUri) ∧
    (s._killWorker).1.disposedWorkers =
      s.disposedWorkers ++ s._worker.toList := by
  unfold TextMateService._killWorker
  refine ⟨rfl, rfl, rfl, ?_, rfl⟩
  simpa using killWorker_msgs s._tokenizers []

/-- C9: a grammar-set created event first performs the kill (same messages,
same worker disposal, map emptied, proxy cleared) and then spawns a fresh
worker exactly when the worker-offload flag — fixed at construction — is
enabled; a grammar-set disposed event is exactly the kill, with no respawn.
The source fixes the flag to `RUN_TEXTMATE_IN_WORKER = false`. -/
theorem C9_grammar_events (s : TextMateService) (flag : Bool) (w : Nat) :
    (s._onDidCreateGrammarFactory flag w).1._worker =
      (if flag then some w else none) ∧
    (s._onDidCreateGrammarFactory flag w).1._workerProxy = none ∧
    (s._onDidCreateGrammarFactory flag w).1._tokenizers = [] ∧
    (s._onDidCreateGrammarFactory flag w).2 = (s._killWorker).2 ∧
    (s._onDidCreateGrammarFactory flag w).1.disposedWorkers =
      (s._killWorker).1.disposedWorkers ∧
    s._onDidDisposeGrammarFactory = s._killWorker ∧
    (s._onDidDisposeGrammarFactory).1._worker = none ∧
    RUN_TEXTMATE_IN_WORKER = false := by
  unfold TextMateService._onDidCreateGrammarFactory
    TextMateService._onDidDisposeGrammarFactory
  cases flag <;>
    simp [TextMateService._killWorker, RUN_TEXTMATE_IN_WORKER]
